import Mathlib

/-!
Verification of the fixed-precision decimal amount type (`STAmount`) from
`src/Amount.cpp`: canonical representation, wire codec, ordering, arithmetic,
and the offer-settlement algorithm `getClaimed`.

The C++ throws `std::runtime_error` with distinct messages; these are modelled
as an explicit error type `Err` ("value overflow" = `overflow`,
"value underflow" = `underflow`, "invalid currency value" = `invalidEncoding`,
"illegal offer" = `illegalDivisor`, "internal bn error" = `internalBNError`).
Fallible operations return `Res`.  The 64-bit unsigned `value` field is
modelled as `ℕ` (all values arising in the shown code are below `2^64`:
canonical mantissas are below `10^16`, the addition of two aligned mantissas is
below `2*10^16`, and the extended-precision products are handled by bignums in
the source); the `int` offset is modelled as `ℤ`.
-/

inductive Err : Type where
  | overflow
  | underflow
  | invalidEncoding
  | illegalDivisor
  | internalBNError
deriving DecidableEq

inductive Res (α : Type) : Type where
  | ok (a : α)
  | err (e : Err)
deriving DecidableEq

/-- In the source, the smallest canonical mantissa `cMinValue = 10^15`
(comment in `Amount.cpp`: "value is 10^15 - (10^16 - 1) inclusive"). -/
def cMinValue : ℕ := 1000000000000000

/-- In the source, the largest canonical mantissa `cMaxValue = 10^16 - 1`. -/
def cMaxValue : ℕ := 9999999999999999

/-- Modelled from the spec: the header `SerializedTypes.h` declaring
`cMinOffset` is not under `src/`; the spec describes a symmetric exponent
range `[MIN_EXPONENT, MAX_EXPONENT]` supporting the ~`10^-80..10^80` dynamic
range (matching the comment "representation range is 10^80 - 10^(-80)" in
`Amount.cpp`), so `cMinOffset = -80`. -/
def cMinOffset : ℤ := -80

/-- Modelled from the spec: symmetric upper exponent bound, `cMaxOffset = 80`
(see `cMinOffset`). -/
def cMaxOffset : ℤ := 80

/-- The `STAmount` data: a mantissa (`value`) and a power-of-ten exponent
(`offset`), representing `value * 10^offset`. -/
structure Amount where
  value : ℕ
  offset : ℤ
deriving DecidableEq

/-- The zero amount `STAmount()`; `zero()` in the source resets to this. -/
def zeroAmount : Amount := ⟨0, 0⟩

/-- First loop of `STAmount::canonicalize`:
`while(value<cMinValue){ if(offset<=cMinOffset) throw "value overflow"; value*=10; offset-=1; }`.
The loop decrements `offset` once per iteration and throws as soon as
`offset <= cMinOffset`, so the number of available iterations is exactly
`(offset - cMinOffset).toNat`, passed here as a structural `fuel` argument
(`fuel = 0` iff `offset <= cMinOffset`). -/
def scaleUpAux : ℕ → ℕ → ℤ → Res (ℕ × ℤ)
  | fuel, v, o =>
    if v < cMinValue then
      match fuel with
      | 0 => .err .overflow
      | fuel + 1 => scaleUpAux fuel (v * 10) (o - 1)
    else .ok (v, o)

/-- Second loop of `STAmount::canonicalize`:
`while(value>cMaxValue){ if(offset>=cMaxOffset) throw "value underflow"; value/=10; offset+=1; }`.
As in `scaleUpAux`, the iteration budget `(cMaxOffset - offset).toNat` encodes
the `offset >= cMaxOffset` throw condition. -/
def scaleDownAux : ℕ → ℕ → ℤ → Res (ℕ × ℤ)
  | fuel, v, o =>
    if cMaxValue < v then
      match fuel with
      | 0 => .err .underflow
      | fuel + 1 => scaleDownAux fuel (v / 10) (o + 1)
    else .ok (v, o)

/-- `STAmount::canonicalize`: zero short-circuits to `(0, 0)`; otherwise the
mantissa is scaled up then down into `[cMinValue, cMaxValue]`. -/
def canonicalize (v : ℕ) (o : ℤ) : Res (ℕ × ℤ) :=
  if v = 0 then .ok (0, 0)
  else
    match scaleUpAux (o - cMinOffset).toNat v o with
    | .err e => .err e
    | .ok (v1, o1) => scaleDownAux (cMaxOffset - o1).toNat v1 o1

/-- Modelled from the spec: the `STAmount(value, offset)` constructor lives in
the header that is not under `src/`; per the spec's lifecycle, a raw
`(mantissa, exponent)` pair is "immediately normalized (canonicalized)". -/
def mkAmount (v : ℕ) (o : ℤ) : Res Amount :=
  match canonicalize v o with
  | .ok (v1, o1) => .ok ⟨v1, o1⟩
  | .err e => .err e

/-- `STAmount::operator==`: identical `(offset, value)` pairs. -/
def eqA (a b : Amount) : Bool :=
  decide (a.offset = b.offset) && decide (a.value = b.value)

/-- `STAmount::operator<`. -/
def ltA (a b : Amount) : Bool :=
  if a.value = 0 then false
  else if a.offset < b.offset then true
  else if b.offset < a.offset then false
  else decide (a.value < b.value)

/-- `STAmount::operator>`. -/
def gtA (a b : Amount) : Bool :=
  if a.value = 0 then decide (b.value ≠ 0)
  else if b.offset < a.offset then true
  else if a.offset < b.offset then false
  else decide (b.value < a.value)

/-- `STAmount::operator<=`. -/
def leA (a b : Amount) : Bool :=
  if a.value = 0 then decide (b.value = 0)
  else if a.offset < b.offset then true
  else if b.offset < a.offset then false
  else decide (a.value ≤ b.value)

/-- `STAmount::operator>=`. -/
def geA (a b : Amount) : Bool :=
  if a.value = 0 then true
  else if b.offset < a.offset then true
  else if a.offset < b.offset then false
  else decide (b.value ≤ a.value)

/-- One alignment loop body of `operator+`/`operator-`:
`value /= 10` iterated `k` times (the loop `while(v1.offset < v2.offset)`
runs exactly `(v2.offset - v1.offset).toNat` times, since only the offset of
the scaled operand changes). -/
def alignLoop : ℕ → ℕ → ℕ
  | 0, v => v
  | k + 1, v => alignLoop k (v / 10)

/-- `operator+(STAmount, STAmount)`: align both operands to the larger offset
by truncating the smaller-offset operand's mantissa, add, construct. -/
def addAmount (a b : Amount) : Res Amount :=
  let v1 := alignLoop (b.offset - a.offset).toNat a.value
  let v2 := alignLoop (a.offset - b.offset).toNat b.value
  mkAmount (v1 + v2) (max a.offset b.offset)

/-- `operator-(STAmount, STAmount)`: align as in addition, throw
"value underflow" if the minuend's aligned mantissa is smaller, else
subtract and construct. -/
def subAmount (a b : Amount) : Res Amount :=
  let v1 := alignLoop (b.offset - a.offset).toNat a.value
  let v2 := alignLoop (a.offset - b.offset).toNat b.value
  if v1 < v2 then .err .underflow
  else mkAmount (v1 - v2) (max a.offset b.offset)

/-- `operator*(STAmount, STAmount)`: zero if either operand is zero, else the
exact bignum product of the mantissas divided by `10^15`, at offset
`o1 + o2 + 15` (the `BN_*` calls fail only on exhausted memory or a zero
divisor, neither of which arises, so they are modelled as exact arithmetic). -/
def mulAmount (a b : Amount) : Res Amount :=
  if a.value = 0 ∨ b.value = 0 then .ok zeroAmount
  else mkAmount (a.value * b.value / 1000000000000000) (a.offset + b.offset + 15)

/-- `operator/(STAmount, STAmount)`: "illegal offer" on a zero divisor, zero
on a zero dividend, else the bignum quotient `(num * 10^16) / den` at offset
`o_num - o_den - 16`. -/
def divAmount (num den : Amount) : Res Amount :=
  if den.value = 0 then .err .illegalDivisor
  else if num.value = 0 then .ok zeroAmount
  else mkAmount (num.value * 10000000000000000 / den.value) (num.offset - den.offset - 16)

/-- `getRate(offerOut, offerIn) = offerOut / offerIn`. -/
def getRate (offerOut offerIn : Amount) : Res Amount :=
  divAmount offerOut offerIn

/-- `getClaimed(offerOut, offerIn, paid)`: the settlement algorithm.  The C++
mutates `offerOut`, `offerIn`, `paid` in place and returns the received
amount; here the result tuple is `(returned, offerOut', offerIn', paid')`. -/
def getClaimed (offerOut offerIn paid : Amount) :
    Res (Amount × Amount × Amount × Amount) :=
  if paid.value = 0 then .ok (zeroAmount, offerOut, offerIn, paid)
  else if offerIn.value = 0 ∨ offerOut.value = 0 then
    .ok (zeroAmount, zeroAmount, zeroAmount, zeroAmount)
  else if geA paid offerIn then .ok (offerOut, zeroAmount, zeroAmount, offerIn)
  else
    match mulAmount paid offerOut with
    | .err e => .err e
    | .ok m =>
      match divAmount m offerIn with
      | .err e => .err e
      | .ok ret =>
        match subAmount offerOut ret with
        | .err e => .err e
        | .ok offerOut1 =>
          match subAmount offerIn paid with
          | .err e => .err e
          | .ok offerIn1 =>
            if offerOut1.value = 0 ∨ offerIn1.value = 0 then
              .ok (ret, zeroAmount, zeroAmount, paid)
            else .ok (ret, offerOut1, offerIn1, paid)

/-- `STAmount::add(Serializer&)`, the wire encoding: zero encodes as the
all-zero word, otherwise `value + ((uint64)(offset + 142) << 56)` in 64-bit
unsigned arithmetic (the cast and the sum wrap modulo `2^64`). -/
def encodeAmount (a : Amount) : ℕ :=
  if a.value = 0 then 0
  else (a.value + ((a.offset + 142) % (2 ^ 64)).toNat * 2 ^ 56) % 2 ^ 64

/-- `STAmount::construct(SerializerIterator&)`, the wire decoding of a 64-bit
word: the top 8 bits are the biased exponent, the low 56 bits the mantissa;
a zero mantissa requires a zero exponent field, a non-zero mantissa must
validate against the canonical ranges after subtracting the bias `142`. -/
def decodeAmount (w : ℕ) : Res Amount :=
  let off0 : ℕ := w / 2 ^ 56
  let v : ℕ := w % 2 ^ 56
  if v = 0 then
    if off0 ≠ 0 then .err .invalidEncoding else mkAmount 0 0
  else
    let o : ℤ := (off0 : ℤ) - 142
    if v < cMinValue ∨ cMaxValue < v ∨ o < cMinOffset ∨ cMaxOffset < o then
      .err .invalidEncoding
    else mkAmount v o

/-- The canonical-form invariant asserted at the end of
`STAmount::canonicalize` and documented in the source comment: either the
amount is zero with offset zero, or the mantissa and offset lie in their
canonical closed ranges. -/
def isCanonical (a : Amount) : Prop :=
  (a.value = 0 ∧ a.offset = 0) ∨
  (cMinValue ≤ a.value ∧ a.value ≤ cMaxValue ∧
    cMinOffset ≤ a.offset ∧ a.offset ≤ cMaxOffset)

instance (a : Amount) : Decidable (isCanonical a) :=
  inferInstanceAs (Decidable ((a.value = 0 ∧ a.offset = 0) ∨
    (cMinValue ≤ a.value ∧ a.value ≤ cMaxValue ∧
      cMinOffset ≤ a.offset ∧ a.offset ≤ cMaxOffset)))

/-- The real number an amount denotes: `value * 10^offset`. -/
def numericVal (a : Amount) : ℚ :=
  (a.value : ℚ) * (10 : ℚ) ^ a.offset

/-- C1 counterexample: the claim says `a <= b` is true whenever `a` is zero,
but `operator<=` returns `a.value == 0` for a zero left operand, so the zero
Amount is NOT `<=` the canonical non-zero Amount `10^15`. -/
theorem c1_zero_le_counterexample :
    isCanonical ⟨0, 0⟩ ∧ isCanonical ⟨1000000000000000, 0⟩ ∧
    leA ⟨0, 0⟩ ⟨1000000000000000, 0⟩ = false := by decide

/-- C1 (amended): for canonical `a` and `b` with `a` zero, `a <= b` returns
true iff `b` is zero; and `a` compares equal (under `operator==`) exactly to
itself. -/
theorem c1_zero_le (a b : Amount) (ha : isCanonical a) (_hb : isCanonical b)
    (hz : a.value = 0) :
    (leA a b = true ↔ b.value = 0) ∧ (eqA a b = true ↔ a = b) := by
  have hoa : a.offset = 0 := by
    rcases ha with ⟨_, h⟩ | ⟨h1, _, _, _⟩
    · exact h
    · rw [hz] at h1; norm_num [cMinValue] at h1
  refine ⟨by simp [leA, hz], ?_⟩
  obtain ⟨av, ao⟩ := a
  obtain ⟨bv, bo⟩ := b
  simp only at hz hoa
  subst hz hoa
  simp [eqA, Amount.mk.injEq]
  tauto

/-- C1 witness: the amended statement at `a = 0`, `b = 10^15`. -/
theorem c1_zero_le_witness :
    (leA ⟨0, 0⟩ ⟨1000000000000000, 0⟩ = true ↔
      (⟨1000000000000000, 0⟩ : Amount).value = 0) ∧
    (eqA ⟨0, 0⟩ ⟨1000000000000000, 0⟩ = true ↔
      (⟨0, 0⟩ : Amount) = ⟨1000000000000000, 0⟩) :=
  c1_zero_le _ _ (by decide) (by decide) (by decide)

/-- C3 counterexample: with `paid = 0`, `offerIn = 50`, `offerOut = 100`
(canonicalized), the code's `paid >= offerIn` holds (a zero left operand makes
`operator>=` return true), yet `getClaimed` returns with the offer untouched:
post-call `offerIn` is `50`, not `0`, and `paid` is not the original
`offerIn`. -/
theorem c3_full_fill_counterexample :
    geA ⟨0, 0⟩ ⟨5000000000000000, -14⟩ = true ∧
    getClaimed ⟨1000000000000000, -13⟩ ⟨5000000000000000, -14⟩ ⟨0, 0⟩ =
      .ok (zeroAmount, ⟨1000000000000000, -13⟩, ⟨5000000000000000, -14⟩, ⟨0, 0⟩) ∧
    (⟨5000000000000000, -14⟩ : Amount) ≠ zeroAmount := by decide

/-- C3 (amended): for every call `getClaimed(offerOut, offerIn, paid)` in
which `paid`, `offerIn` and `offerOut` are all non-zero and `paid >= offerIn`,
the call returns the original `offerOut`, zeroes `offerOut` and `offerIn`, and
sets `paid` to the original `offerIn`. -/
theorem c3_full_fill (offerOut offerIn paid : Amount)
    (hp : paid.value ≠ 0) (hin : offerIn.value ≠ 0) (hout : offerOut.value ≠ 0)
    (hge : geA paid offerIn = true) :
    getClaimed offerOut offerIn paid = .ok (offerOut, zeroAmount, zeroAmount, offerIn) := by
  unfold getClaimed
  rw [if_neg hp, if_neg (by tauto), if_pos (by simp [hge])]

/-- C3 witness: a concrete full fill, `offerOut = 100`, `offerIn = 50`,
`paid = 60` (canonical forms). -/
theorem c3_full_fill_witness :
    getClaimed ⟨1000000000000000, -13⟩ ⟨5000000000000000, -14⟩ ⟨6000000000000000, -14⟩ =
      .ok (⟨1000000000000000, -13⟩, zeroAmount, zeroAmount, ⟨5000000000000000, -14⟩) :=
  c3_full_fill _ _ _ (by decide) (by decide) (by decide) (by decide)

/-- C4: dividing the Amount `(cMinValue, cMinOffset)` by the canonical
Amount `2*10^15` (numeric value `2*10^15 > 1`) does NOT fail with the
Overflow error: the quotient mantissa `5*10^15` is already inside the
canonical mantissa range, so neither canonicalize loop runs and the division
returns successfully — with an offset of `-96`, strictly below `cMinOffset`,
violating the canonical-form assertion at the end of
`STAmount::canonicalize`. -/
theorem c4_div_min_exponent_no_overflow :
    isCanonical ⟨1000000000000000, -80⟩ ∧ isCanonical ⟨2000000000000000, 0⟩ ∧
    1 < numericVal ⟨2000000000000000, 0⟩ ∧
    divAmount ⟨1000000000000000, -80⟩ ⟨2000000000000000, 0⟩ =
      .ok ⟨5000000000000000, -96⟩ ∧
    (⟨5000000000000000, -96⟩ : Amount).offset < cMinOffset := by
  refine ⟨by decide, by decide, ?_, by decide, by decide⟩
  simp [numericVal]

/-- C6 counterexample: subtracting `10` from `5` (canonical forms), the
minuend's aligned mantissa `5*10^14` is smaller than the subtrahend's
`10^15`, and the error raised is Underflow ("value underflow"), not
Overflow. -/
theorem c6_sub_negative_counterexample :
    subAmount ⟨5000000000000000, -15⟩ ⟨1000000000000000, -14⟩ = .err .underflow ∧
    Err.underflow ≠ Err.overflow := by decide

/-- C6 (amended): whenever the minuend's aligned mantissa is smaller than the
subtrahend's, the subtraction operator fails, and the error kind it raises is
Underflow. -/
theorem c6_sub_negative (a b : Amount)
    (h : alignLoop (b.offset - a.offset).toNat a.value <
      alignLoop (a.offset - b.offset).toNat b.value) :
    subAmount a b = .err .underflow := by
  simp [subAmount, h]

/-- C6 witness: `10 - 20` in canonical form raises Underflow. -/
theorem c6_sub_negative_witness :
    subAmount ⟨1000000000000000, -14⟩ ⟨2000000000000000, -14⟩ = .err .underflow :=
  c6_sub_negative _ _ (by decide)

/-- C8: with inputs canonicalized from `offerOut = 100`, `offerIn = 50`,
`paid = 10`, `getClaimed` returns the canonical Amount `20` and leaves
post-call `offerOut = 80`, `offerIn = 40`, and `paid` unchanged at `10`. -/
theorem c8_partial_fill_example :
    mkAmount 100 0 = .ok ⟨1000000000000000, -13⟩ ∧
    mkAmount 50 0 = .ok ⟨5000000000000000, -14⟩ ∧
    mkAmount 10 0 = .ok ⟨1000000000000000, -14⟩ ∧
    mkAmount 20 0 = .ok ⟨2000000000000000, -14⟩ ∧
    mkAmount 80 0 = .ok ⟨8000000000000000, -14⟩ ∧
    mkAmount 40 0 = .ok ⟨4000000000000000, -14⟩ ∧
    getClaimed ⟨1000000000000000, -13⟩ ⟨5000000000000000, -14⟩ ⟨1000000000000000, -14⟩ =
      .ok (⟨2000000000000000, -14⟩, ⟨8000000000000000, -14⟩,
        ⟨4000000000000000, -14⟩, ⟨1000000000000000, -14⟩) := by decide

/-- C9: comparing the zero Amount against any `b` with `operator>` returns
true exactly when `b` is non-zero. -/
theorem c9_zero_gt (b : Amount) : gtA ⟨0, 0⟩ b = decide (b.value ≠ 0) := rfl

/-- C5 counterexample: the canonical Amount `a = (1000000000000001, -1)` does
not satisfy `a + 0 == a`: aligning `a` to the zero operand's offset `0`
truncates the low mantissa digit, and the sum canonicalizes to
`(1000000000000000, -1)`. -/
theorem c5_add_zero_counterexample :
    isCanonical ⟨1000000000000001, -1⟩ ∧
    addAmount ⟨1000000000000001, -1⟩ zeroAmount = .ok ⟨1000000000000000, -1⟩ ∧
    (⟨1000000000000000, -1⟩ : Amount) ≠ ⟨1000000000000001, -1⟩ := by decide

theorem scaleUpAux_in_range (fuel : ℕ) (v : ℕ) (o : ℤ) (h : ¬ v < cMinValue) :
    scaleUpAux fuel v o = .ok (v, o) := by
  unfold scaleUpAux
  rw [if_neg h]

theorem scaleDownAux_in_range (fuel : ℕ) (v : ℕ) (o : ℤ) (h : ¬ cMaxValue < v) :
    scaleDownAux fuel v o = .ok (v, o) := by
  unfold scaleDownAux
  rw [if_neg h]

theorem canonicalize_in_range (v : ℕ) (o : ℤ) (h1 : cMinValue ≤ v) (h2 : v ≤ cMaxValue) :
    canonicalize v o = .ok (v, o) := by
  have hv : v ≠ 0 := by
    simp only [cMinValue] at h1
    omega
  unfold canonicalize
  rw [if_neg hv, scaleUpAux_in_range _ _ _ (not_lt.mpr h1)]
  exact scaleDownAux_in_range _ _ _ (not_lt.mpr h2)

theorem mkAmount_in_range (v : ℕ) (o : ℤ) (h1 : cMinValue ≤ v) (h2 : v ≤ cMaxValue) :
    mkAmount v o = .ok ⟨v, o⟩ := by
  unfold mkAmount
  rw [canonicalize_in_range v o h1 h2]

/-- C7: for all canonical Amounts `a` and `b`, exactly one of `a < b`,
`a == b`, `a > b` holds. -/
theorem c7_trichotomy (a b : Amount) (ha : isCanonical a) (hb : isCanonical b) :
    (ltA a b = true ∧ eqA a b = false ∧ gtA a b = false) ∨
    (ltA a b = false ∧ eqA a b = true ∧ gtA a b = false) ∨
    (ltA a b = false ∧ eqA a b = false ∧ gtA a b = true) := by
  obtain ⟨av, ao⟩ := a
  obtain ⟨bv, bo⟩ := b
  simp only [isCanonical, cMinValue, cMaxValue, cMinOffset, cMaxOffset] at ha hb
  simp only [ltA, eqA, gtA]
  split_ifs <;> simp_all <;> omega

/-- C7 witness: the trichotomy at the canonical pair `(10^15, 0)` and
`(2*10^15, 0)`. -/
theorem c7_trichotomy_witness :
    (ltA ⟨1000000000000000, 0⟩ ⟨2000000000000000, 0⟩ = true ∧
      eqA ⟨1000000000000000, 0⟩ ⟨2000000000000000, 0⟩ = false ∧
      gtA ⟨1000000000000000, 0⟩ ⟨2000000000000000, 0⟩ = false) ∨
    (ltA ⟨1000000000000000, 0⟩ ⟨2000000000000000, 0⟩ = false ∧
      eqA ⟨1000000000000000, 0⟩ ⟨2000000000000000, 0⟩ = true ∧
      gtA ⟨1000000000000000, 0⟩ ⟨2000000000000000, 0⟩ = false) ∨
    (ltA ⟨1000000000000000, 0⟩ ⟨2000000000000000, 0⟩ = false ∧
      eqA ⟨1000000000000000, 0⟩ ⟨2000000000000000, 0⟩ = false ∧
      gtA ⟨1000000000000000, 0⟩ ⟨2000000000000000, 0⟩ = true) :=
  c7_trichotomy _ _ (by decide) (by decide)

/-- C2: encoding a canonical Amount to its 64-bit wire word and decoding it
back succeeds and returns the identical `(mantissa, exponent)` pair. -/
theorem c2_roundtrip (a : Amount) (ha : isCanonical a) :
    decodeAmount (encodeAmount a) = .ok a := by
  obtain ⟨av, ao⟩ := a
  rcases ha with ⟨h1, h2⟩ | ⟨h1, h2, h3, h4⟩
  · simp only at h1 h2
    subst h1
    subst h2
    decide
  · simp only [cMinValue, cMaxValue, cMinOffset, cMaxOffset] at h1 h2 h3 h4
    have hav : av ≠ 0 := by omega
    have h56 : (2 : ℕ) ^ 56 = 72057594037927936 := by norm_num
    have h64n : (2 : ℕ) ^ 64 = 18446744073709551616 := by norm_num
    have hmod : (ao + 142) % ((2 : ℤ) ^ 64) = ao + 142 := by
      have h64 : ((2 : ℤ) ^ 64) = 18446744073709551616 := by norm_num
      rw [h64]
      exact Int.emod_eq_of_lt (by omega) (by omega)
    have hcast : (((ao + 142).toNat : ℤ)) = ao + 142 := Int.toNat_of_nonneg (by omega)
    have hnb : (ao + 142).toNat ≤ 222 := by omega
    have henc : encodeAmount ⟨av, ao⟩ = av + (ao + 142).toNat * 2 ^ 56 := by
      unfold encodeAmount
      dsimp only
      rw [if_neg hav, hmod, Nat.mod_eq_of_lt (by rw [h56, h64n] at *; omega)]
    rw [henc]
    unfold decodeAmount
    have hdiv : (av + (ao + 142).toNat * 2 ^ 56) / 2 ^ 56 = (ao + 142).toNat := by
      rw [h56] at *
      omega
    have hmod2 : (av + (ao + 142).toNat * 2 ^ 56) % 2 ^ 56 = av := by
      rw [h56] at *
      omega
    simp only [hdiv, hmod2]
    rw [if_neg hav]
    have hoff : (((ao + 142).toNat : ℤ)) - 142 = ao := by omega
    rw [hoff]
    rw [if_neg (by simp only [cMinValue, cMaxValue, cMinOffset, cMaxOffset]; omega)]
    exact mkAmount_in_range _ _ (by simp only [cMinValue]; omega)
      (by simp only [cMaxValue]; omega)

/-- C2 witness: the round trip at the canonical Amount `(10^15, 0)`. -/
theorem c2_roundtrip_witness :
    decodeAmount (encodeAmount ⟨1000000000000000, 0⟩) = .ok ⟨1000000000000000, 0⟩ :=
  c2_roundtrip _ (by decide)

theorem alignLoop_eq (k : ℕ) : ∀ v : ℕ, alignLoop k v = v / 10 ^ k := by
  induction k with
  | zero => intro v; simp [alignLoop]
  | succ n ih =>
    intro v
    show alignLoop n (v / 10) = v / 10 ^ (n + 1)
    rw [ih, Nat.div_div_eq_div_mul, pow_succ]
    ring_nf

theorem scaleUpAux_exact (k : ℕ) : ∀ (v : ℕ) (o : ℤ) (fuel : ℕ), k ≤ fuel →
    cMinValue ≤ v * 10 ^ k → v * 10 ^ k ≤ cMaxValue →
    scaleUpAux fuel v o = .ok (v * 10 ^ k, o - k) := by
  induction k with
  | zero =>
    intro v o fuel _ h1 h2
    rw [pow_zero, Nat.mul_one] at h1
    have := scaleUpAux_in_range fuel v o (not_lt.mpr h1)
    simpa using this
  | succ n ih =>
    intro v o fuel hf h1 h2
    obtain ⟨f, rfl⟩ : ∃ f, fuel = f + 1 := ⟨fuel - 1, by omega⟩
    have hvlt : v < cMinValue := by
      have h10 : (10 : ℕ) ≤ 10 ^ (n + 1) := Nat.le_self_pow (by omega) 10
      have hm : v * 10 ≤ v * 10 ^ (n + 1) := Nat.mul_le_mul_left v h10
      simp only [cMinValue, cMaxValue] at h2 ⊢
      omega
    have hval : v * 10 * 10 ^ n = v * 10 ^ (n + 1) := by ring
    have hoff : o - 1 - (n : ℤ) = o - (((n + 1 : ℕ)) : ℤ) := by push_cast; ring
    have hstep := ih (v * 10) (o - 1) f (by omega) (by rw [hval]; exact h1) (by rw [hval]; exact h2)
    unfold scaleUpAux
    rw [if_pos hvlt]
    exact hstep.trans (by rw [hval, hoff])

theorem canonicalize_exact_up (v : ℕ) (o : ℤ) (k : ℕ) (hfuel : (k : ℤ) ≤ o - cMinOffset)
    (h1 : cMinValue ≤ v * 10 ^ k) (h2 : v * 10 ^ k ≤ cMaxValue) :
    canonicalize v o = .ok (v * 10 ^ k, o - k) := by
  have hv : v ≠ 0 := by
    rintro rfl
    rw [Nat.zero_mul] at h1
    simp only [cMinValue] at h1
    omega
  unfold canonicalize
  rw [if_neg hv, scaleUpAux_exact k v o _ (by omega) h1 h2]
  exact scaleDownAux_in_range _ _ _ (not_lt.mpr h2)

theorem mkAmount_exact_up (v : ℕ) (o : ℤ) (k : ℕ) (hfuel : (k : ℤ) ≤ o - cMinOffset)
    (h1 : cMinValue ≤ v * 10 ^ k) (h2 : v * 10 ^ k ≤ cMaxValue) :
    mkAmount v o = .ok ⟨v * 10 ^ k, o - k⟩ := by
  unfold mkAmount
  rw [canonicalize_exact_up v o k hfuel h1 h2]

/-- C5 (amended): `a + 0 == a` holds for every canonical `a` whose exponent
is non-negative, or whose mantissa is divisible by `10^(-exponent)` (so that
the alignment truncation loses nothing). -/
theorem c5_add_zero (a : Amount) (ha : isCanonical a)
    (h : 0 ≤ a.offset ∨ (10 : ℕ) ^ (-a.offset).toNat ∣ a.value) :
    addAmount a zeroAmount = .ok a := by
  obtain ⟨av, ao⟩ := a
  rcases ha with ⟨h1, h2⟩ | ⟨h1, h2, h3, h4⟩
  · simp only at h1 h2
    subst h1
    subst h2
    decide
  · simp only at h h1 h2 h3 h4
    unfold addAmount zeroAmount
    dsimp only
    rw [alignLoop_eq, alignLoop_eq, Nat.zero_div, Nat.add_zero]
    by_cases hpos : 0 ≤ ao
    · have e1 : ((0 : ℤ) - ao).toNat = 0 := by omega
      have e2 : max ao (0 : ℤ) = ao := by omega
      rw [e1, e2, pow_zero, Nat.div_one]
      exact mkAmount_in_range _ _ h1 h2
    · have hdvd : (10 : ℕ) ^ (-ao).toNat ∣ av := h.resolve_left hpos
      push_neg at hpos
      have hkle : (10 : ℕ) ^ (-ao).toNat ≤ av := by
        apply Nat.le_of_dvd _ hdvd
        simp only [cMinValue] at h1
        omega
      have hk15 : (-ao).toNat ≤ 15 := by
        by_contra hgt
        push_neg at hgt
        have h16 : (10 : ℕ) ^ 16 ≤ 10 ^ (-ao).toNat := Nat.pow_le_pow_right (by norm_num) (by omega)
        simp only [cMaxValue] at h2
        norm_num at h16
        omega
      have e1 : ((0 : ℤ) - ao).toNat = (-ao).toNat := by omega
      have e2 : max ao (0 : ℤ) = 0 := by omega
      rw [e1, e2]
      have hcancel : av / 10 ^ (-ao).toNat * 10 ^ (-ao).toNat = av := Nat.div_mul_cancel hdvd
      rw [mkAmount_exact_up _ _ ((-ao).toNat)
        (by simp only [cMinOffset]; omega)
        (by rw [hcancel]; exact h1)
        (by rw [hcancel]; exact h2)]
      rw [hcancel]
      have : (0 : ℤ) - ((-ao).toNat : ℤ) = ao := by omega
      rw [this]

/-- C5 witness: the amended statement at the canonical Amount
`(1234567890123456, 0)` (non-negative exponent). -/
theorem c5_add_zero_witness :
    addAmount ⟨1234567890123456, 0⟩ zeroAmount = .ok ⟨1234567890123456, 0⟩ :=
  c5_add_zero _ (by decide) (by decide)

theorem numericVal_nonneg (a : Amount) : 0 ≤ numericVal a := by
  unfold numericVal
  positivity

theorem numericVal_pos (a : Amount) (h : a.value ≠ 0) : 0 < numericVal a := by
  unfold numericVal
  have h1 : (0 : ℚ) < a.value := by exact_mod_cast Nat.pos_of_ne_zero h
  exact mul_pos h1 (zpow_pos (by norm_num) _)

theorem scaleUpAux_numeric (fuel : ℕ) : ∀ (v : ℕ) (o : ℤ) (v1 : ℕ) (o1 : ℤ),
    scaleUpAux fuel v o = .ok (v1, o1) →
    (v1 : ℚ) * (10 : ℚ) ^ o1 = (v : ℚ) * (10 : ℚ) ^ o := by
  induction fuel with
  | zero =>
    intro v o v1 o1 h
    unfold scaleUpAux at h
    by_cases hv : v < cMinValue
    · rw [if_pos hv] at h
      exact absurd h (by simp)
    · rw [if_neg hv] at h
      obtain ⟨rfl, rfl⟩ : v = v1 ∧ o = o1 := by simpa using h
      rfl
  | succ f ih =>
    intro v o v1 o1 h
    unfold scaleUpAux at h
    by_cases hv : v < cMinValue
    · rw [if_pos hv] at h
      have hrec := ih (v * 10) (o - 1) v1 o1 h
      rw [hrec]
      have h10 : (10 : ℚ) ^ o = 10 ^ (o - 1) * 10 := by
        rw [← zpow_add_one₀ (by norm_num : (10 : ℚ) ≠ 0) (o - 1), sub_add_cancel]
      rw [h10]
      push_cast
      ring
    · rw [if_neg hv] at h
      obtain ⟨rfl, rfl⟩ : v = v1 ∧ o = o1 := by simpa using h
      rfl

theorem scaleDownAux_numeric_le (fuel : ℕ) : ∀ (v : ℕ) (o : ℤ) (v1 : ℕ) (o1 : ℤ),
    scaleDownAux fuel v o = .ok (v1, o1) →
    (v1 : ℚ) * (10 : ℚ) ^ o1 ≤ (v : ℚ) * (10 : ℚ) ^ o := by
  induction fuel with
  | zero =>
    intro v o v1 o1 h
    unfold scaleDownAux at h
    by_cases hv : cMaxValue < v
    · rw [if_pos hv] at h
      exact absurd h (by simp)
    · rw [if_neg hv] at h
      obtain ⟨rfl, rfl⟩ : v = v1 ∧ o = o1 := by simpa using h
      exact le_refl _
  | succ f ih =>
    intro v o v1 o1 h
    unfold scaleDownAux at h
    by_cases hv : cMaxValue < v
    · rw [if_pos hv] at h
      have hrec := ih (v / 10) (o + 1) v1 o1 h
      have h10 : (10 : ℚ) ^ (o + 1) = 10 ^ o * 10 := zpow_add_one₀ (by norm_num) o
      have hd : ((v / 10 : ℕ) : ℚ) * 10 ≤ (v : ℚ) := by
        exact_mod_cast Nat.div_mul_le_self v 10
      calc (v1 : ℚ) * 10 ^ o1 ≤ ((v / 10 : ℕ) : ℚ) * 10 ^ (o + 1) := hrec
        _ = (((v / 10 : ℕ) : ℚ) * 10) * 10 ^ o := by rw [h10]; ring
        _ ≤ (v : ℚ) * 10 ^ o :=
            mul_le_mul_of_nonneg_right hd (zpow_pos (by norm_num : (0:ℚ) < 10) o).le
    · rw [if_neg hv] at h
      obtain ⟨rfl, rfl⟩ : v = v1 ∧ o = o1 := by simpa using h
      exact le_refl _

theorem canonicalize_numeric_le (v : ℕ) (o : ℤ) (v1 : ℕ) (o1 : ℤ)
    (h : canonicalize v o = .ok (v1, o1)) :
    (v1 : ℚ) * (10 : ℚ) ^ o1 ≤ (v : ℚ) * (10 : ℚ) ^ o := by
  unfold canonicalize at h
  by_cases hv : v = 0
  · rw [if_pos hv] at h
    obtain ⟨rfl, rfl⟩ : (0 : ℕ) = v1 ∧ (0 : ℤ) = o1 := by simpa [Prod.ext_iff] using h
    subst hv
    simp
  · rw [if_neg hv] at h
    cases hs : scaleUpAux (o - cMinOffset).toNat v o with
    | err e =>
      rw [hs] at h
      exact absurd h (by simp)
    | ok p =>
      obtain ⟨v2, o2⟩ := p
      rw [hs] at h
      calc (v1 : ℚ) * 10 ^ o1 ≤ (v2 : ℚ) * 10 ^ o2 :=
            scaleDownAux_numeric_le _ _ _ _ _ h
        _ = (v : ℚ) * 10 ^ o := scaleUpAux_numeric _ _ _ _ _ hs

theorem mkAmount_ok (v : ℕ) (o : ℤ) (a : Amount) (h : mkAmount v o = .ok a) :
    canonicalize v o = .ok (a.value, a.offset) := by
  unfold mkAmount at h
  cases hc : canonicalize v o with
  | ok p =>
    obtain ⟨v1, o1⟩ := p
    rw [hc] at h
    obtain rfl : (⟨v1, o1⟩ : Amount) = a := by simpa using h
    rfl
  | err e =>
    rw [hc] at h
    exact absurd h (by simp)

theorem mkAmount_numeric_le (v : ℕ) (o : ℤ) (a : Amount) (h : mkAmount v o = .ok a) :
    numericVal a ≤ (v : ℚ) * (10 : ℚ) ^ o :=
  canonicalize_numeric_le v o a.value a.offset (mkAmount_ok v o a h)

theorem scaleUpAux_err (fuel : ℕ) : ∀ (v : ℕ) (o : ℤ) (e : Err),
    scaleUpAux fuel v o = .err e → e = .overflow := by
  induction fuel with
  | zero =>
    intro v o e h
    unfold scaleUpAux at h
    by_cases hv : v < cMinValue
    · rw [if_pos hv] at h
      obtain rfl : Err.overflow = e := by simpa using h
      rfl
    · rw [if_neg hv] at h
      exact absurd h (by simp)
  | succ f ih =>
    intro v o e h
    unfold scaleUpAux at h
    by_cases hv : v < cMinValue
    · rw [if_pos hv] at h
      exact ih _ _ _ h
    · rw [if_neg hv] at h
      exact absurd h (by simp)

theorem scaleUpAux_le_max (fuel : ℕ) : ∀ (v : ℕ) (o : ℤ) (v1 : ℕ) (o1 : ℤ),
    v ≤ cMaxValue → scaleUpAux fuel v o = .ok (v1, o1) → v1 ≤ cMaxValue := by
  induction fuel with
  | zero =>
    intro v o v1 o1 hmax h
    unfold scaleUpAux at h
    by_cases hv : v < cMinValue
    · rw [if_pos hv] at h
      exact absurd h (by simp)
    · rw [if_neg hv] at h
      obtain ⟨rfl, rfl⟩ : v = v1 ∧ o = o1 := by simpa using h
      exact hmax
  | succ f ih =>
    intro v o v1 o1 hmax h
    unfold scaleUpAux at h
    by_cases hv : v < cMinValue
    · rw [if_pos hv] at h
      refine ih (v * 10) (o - 1) v1 o1 ?_ h
      simp only [cMinValue, cMaxValue] at hv ⊢
      omega
    · rw [if_neg hv] at h
      obtain ⟨rfl, rfl⟩ : v = v1 ∧ o = o1 := by simpa using h
      exact hmax

theorem canonicalize_ne_underflow (v : ℕ) (o : ℤ) (hmax : v ≤ cMaxValue) :
    canonicalize v o ≠ .err .underflow := by
  unfold canonicalize
  by_cases hv : v = 0
  · rw [if_pos hv]
    simp
  · rw [if_neg hv]
    cases hs : scaleUpAux (o - cMinOffset).toNat v o with
    | err e =>
      obtain rfl : e = Err.overflow := scaleUpAux_err _ _ _ _ hs
      simp
    | ok p =>
      obtain ⟨v2, o2⟩ := p
      have hv2 : v2 ≤ cMaxValue := scaleUpAux_le_max _ _ _ _ _ hmax hs
      show scaleDownAux (cMaxOffset - o2).toNat v2 o2 ≠ Res.err Err.underflow
      rw [scaleDownAux_in_range _ _ _ (not_lt.mpr hv2)]
      simp

theorem mkAmount_ne_underflow (v : ℕ) (o : ℤ) (hmax : v ≤ cMaxValue) :
    mkAmount v o ≠ .err .underflow := by
  unfold mkAmount
  cases hc : canonicalize v o with
  | ok p => simp
  | err e =>
    intro hcon
    obtain rfl : e = Err.underflow := by simpa using hcon
    exact canonicalize_ne_underflow v o hmax hc

theorem align_le_of_numeric_le (a b : Amount) (hle : numericVal b ≤ numericVal a) :
    alignLoop (a.offset - b.offset).toNat b.value ≤
      alignLoop (b.offset - a.offset).toNat a.value := by
  rw [alignLoop_eq, alignLoop_eq]
  unfold numericVal at hle
  rcases le_total a.offset b.offset with hab | hba
  · have h0 : (a.offset - b.offset).toNat = 0 := by omega
    set d := (b.offset - a.offset).toNat with hd
    have hbo : b.offset = a.offset + (d : ℤ) := by omega
    rw [h0, pow_zero, Nat.div_one, Nat.le_div_iff_mul_le (by positivity)]
    have hkey : (b.value : ℚ) * (10 : ℚ) ^ (d : ℤ) * (10 : ℚ) ^ a.offset ≤
        (a.value : ℚ) * (10 : ℚ) ^ a.offset := by
      calc (b.value : ℚ) * 10 ^ (d : ℤ) * 10 ^ a.offset
          = (b.value : ℚ) * 10 ^ (a.offset + (d : ℤ)) := by
            rw [zpow_add₀ (by norm_num : (10 : ℚ) ≠ 0)]
            ring
        _ ≤ (a.value : ℚ) * 10 ^ a.offset := by rw [← hbo]; exact hle
    have hq : (b.value : ℚ) * (10 : ℚ) ^ (d : ℤ) ≤ (a.value : ℚ) :=
      le_of_mul_le_mul_right hkey (zpow_pos (by norm_num) _)
    rw [zpow_natCast] at hq
    exact_mod_cast hq
  · have h0 : (b.offset - a.offset).toNat = 0 := by omega
    set d := (a.offset - b.offset).toNat with hd
    have hao : a.offset = b.offset + (d : ℤ) := by omega
    rw [h0, pow_zero, Nat.div_one]
    have hkey : (b.value : ℚ) * (10 : ℚ) ^ b.offset ≤
        (a.value : ℚ) * (10 : ℚ) ^ (d : ℤ) * (10 : ℚ) ^ b.offset := by
      calc (b.value : ℚ) * 10 ^ b.offset ≤ (a.value : ℚ) * 10 ^ a.offset := hle
        _ = (a.value : ℚ) * 10 ^ (d : ℤ) * 10 ^ b.offset := by
            rw [hao, zpow_add₀ (by norm_num : (10 : ℚ) ≠ 0)]
            ring
    have hq : (b.value : ℚ) ≤ (a.value : ℚ) * (10 : ℚ) ^ (d : ℤ) :=
      le_of_mul_le_mul_right hkey (zpow_pos (by norm_num) _)
    rw [zpow_natCast] at hq
    have hn : b.value ≤ 10 ^ d * a.value := by
      rw [mul_comm]
      exact_mod_cast hq
    exact Nat.div_le_of_le_mul hn

theorem mulAmount_numeric_le (a b c : Amount) (h : mulAmount a b = .ok c) :
    numericVal c ≤ numericVal a * numericVal b := by
  unfold mulAmount at h
  by_cases hz : a.value = 0 ∨ b.value = 0
  · rw [if_pos hz] at h
    obtain rfl : zeroAmount = c := by simpa using h
    have h0 : numericVal zeroAmount = 0 := by simp [numericVal, zeroAmount]
    rw [h0]
    exact mul_nonneg (numericVal_nonneg a) (numericVal_nonneg b)
  · rw [if_neg hz] at h
    have h1 := mkAmount_numeric_le _ _ _ h
    refine h1.trans ?_
    unfold numericVal
    have hsplit : (10 : ℚ) ^ (a.offset + b.offset + 15) =
        10 ^ a.offset * 10 ^ b.offset * 10 ^ (15 : ℤ) := by
      rw [zpow_add₀ (by norm_num : (10 : ℚ) ≠ 0),
        zpow_add₀ (by norm_num : (10 : ℚ) ≠ 0)]
    rw [hsplit]
    have hkey : ((a.value * b.value / 1000000000000000 : ℕ) : ℚ) * 10 ^ (15 : ℤ) ≤
        (a.value : ℚ) * b.value := by
      have h2 : (a.value * b.value / 1000000000000000) * 1000000000000000 ≤
          a.value * b.value := Nat.div_mul_le_self _ _
      have h3 : ((10 : ℚ)) ^ (15 : ℤ) = 1000000000000000 := by norm_num
      rw [h3]
      exact_mod_cast h2
    calc ((a.value * b.value / 1000000000000000 : ℕ) : ℚ) *
          (10 ^ a.offset * 10 ^ b.offset * 10 ^ (15 : ℤ))
        = (((a.value * b.value / 1000000000000000 : ℕ) : ℚ) * 10 ^ (15 : ℤ)) *
          (10 ^ a.offset * 10 ^ b.offset) := by ring
      _ ≤ ((a.value : ℚ) * b.value) * (10 ^ a.offset * 10 ^ b.offset) := by
          apply mul_le_mul_of_nonneg_right hkey
          positivity
      _ = ((a.value : ℚ) * 10 ^ a.offset) * ((b.value : ℚ) * 10 ^ b.offset) := by ring

theorem divAmount_numeric_mul_le (a b c : Amount) (hb : b.value ≠ 0)
    (h : divAmount a b = .ok c) :
    numericVal c * numericVal b ≤ numericVal a := by
  unfold divAmount at h
  rw [if_neg hb] at h
  by_cases ha : a.value = 0
  · rw [if_pos ha] at h
    obtain rfl : zeroAmount = c := by simpa using h
    have h0 : numericVal zeroAmount = 0 := by simp [numericVal, zeroAmount]
    rw [h0, zero_mul]
    exact numericVal_nonneg a
  · rw [if_neg ha] at h
    set q : ℕ := a.value * 10000000000000000 / b.value with hqdef
    have h1 := mkAmount_numeric_le _ _ _ h
    have hqb : (q : ℚ) * b.value ≤ (a.value : ℚ) * 10 ^ (16 : ℤ) := by
      have h2 : q * b.value ≤ a.value * 10000000000000000 := Nat.div_mul_le_self _ _
      have h3 : ((10 : ℚ)) ^ (16 : ℤ) = 10000000000000000 := by norm_num
      rw [h3]
      exact_mod_cast h2
    unfold numericVal at h1 ⊢
    have e1 : (10 : ℚ) ^ (a.offset - b.offset - 16) * 10 ^ b.offset =
        10 ^ (a.offset - 16) := by
      rw [← zpow_add₀ (by norm_num : (10 : ℚ) ≠ 0)]
      congr 1
      ring
    have e2 : (10 : ℚ) ^ (16 : ℤ) * 10 ^ (a.offset - 16) = 10 ^ a.offset := by
      rw [← zpow_add₀ (by norm_num : (10 : ℚ) ≠ 0)]
      congr 1
      ring
    calc (c.value : ℚ) * 10 ^ c.offset * ((b.value : ℚ) * 10 ^ b.offset)
        ≤ ((q : ℚ) * 10 ^ (a.offset - b.offset - 16)) * ((b.value : ℚ) * 10 ^ b.offset) := by
          apply mul_le_mul_of_nonneg_right h1
          positivity
      _ = ((q : ℚ) * b.value) * (10 ^ (a.offset - b.offset - 16) * 10 ^ b.offset) := by
          ring
      _ ≤ ((a.value : ℚ) * 10 ^ (16 : ℤ)) * (10 ^ (a.offset - b.offset - 16) * 10 ^ b.offset) := by
          apply mul_le_mul_of_nonneg_right hqb
          positivity
      _ = (a.value : ℚ) * (10 ^ (16 : ℤ) * (10 ^ (a.offset - b.offset - 16) * 10 ^ b.offset)) := by
          ring
      _ = (a.value : ℚ) * 10 ^ a.offset := by rw [e1, e2]

theorem numeric_lt_of_geA_false (a b : Amount) (ha : isCanonical a) (hb : isCanonical b)
    (ha0 : a.value ≠ 0) (hb0 : b.value ≠ 0) (h : geA a b = false) :
    numericVal a < numericVal b := by
  have hab : cMinValue ≤ a.value ∧ a.value ≤ cMaxValue := by
    rcases ha with ⟨h1, _⟩ | ⟨h1, h2, _, _⟩
    · exact absurd h1 ha0
    · exact ⟨h1, h2⟩
  have hbb : cMinValue ≤ b.value ∧ b.value ≤ cMaxValue := by
    rcases hb with ⟨h1, _⟩ | ⟨h1, h2, _, _⟩
    · exact absurd h1 hb0
    · exact ⟨h1, h2⟩
  unfold geA at h
  rw [if_neg ha0] at h
  by_cases h1 : b.offset < a.offset
  · rw [if_pos h1] at h
    exact absurd h (by simp)
  · rw [if_neg h1] at h
    by_cases h2 : a.offset < b.offset
    · clear h
      unfold numericVal
      have hbo : (10 : ℚ) ^ (a.offset + 1) ≤ 10 ^ b.offset :=
        zpow_le_zpow_right₀ (by norm_num) (by omega)
      have hstep : (a.value : ℚ) < 10 * (b.value : ℚ) := by
        have hn : a.value < 10 * b.value := by
          simp only [cMinValue, cMaxValue] at hab hbb
          omega
        exact_mod_cast hn
      calc (a.value : ℚ) * 10 ^ a.offset
          < (10 * (b.value : ℚ)) * 10 ^ a.offset :=
            mul_lt_mul_of_pos_right hstep (zpow_pos (by norm_num) _)
        _ = (b.value : ℚ) * 10 ^ (a.offset + 1) := by
            rw [zpow_add_one₀ (by norm_num : (10 : ℚ) ≠ 0)]
            ring
        _ ≤ (b.value : ℚ) * 10 ^ b.offset := by
            apply mul_le_mul_of_nonneg_left hbo
            positivity
    · rw [if_neg h2] at h
      simp only [decide_eq_false_iff_not, not_le] at h
      have heq : a.offset = b.offset := by omega
      unfold numericVal
      rw [heq]
      exact mul_lt_mul_of_pos_right (by exact_mod_cast h) (zpow_pos (by norm_num) _)

theorem sub_no_underflow (a b : Amount) (hmax : a.value ≤ cMaxValue)
    (hle : numericVal b ≤ numericVal a) :
    subAmount a b ≠ .err .underflow := by
  unfold subAmount
  dsimp only
  have hcmp := align_le_of_numeric_le a b hle
  rw [if_neg (not_lt.mpr hcmp)]
  apply mkAmount_ne_underflow
  calc alignLoop (b.offset - a.offset).toNat a.value -
        alignLoop (a.offset - b.offset).toNat b.value
      ≤ alignLoop (b.offset - a.offset).toNat a.value := Nat.sub_le _ _
    _ ≤ a.value := by rw [alignLoop_eq]; exact Nat.div_le_self _ _
    _ ≤ cMaxValue := hmax

/-- C10: in `getClaimed`'s partial-fill branch (`paid`, `offerIn`, `offerOut`
non-zero canonical and the code's `paid >= offerIn` false), any successfully
computed `received = (paid * offerOut) / offerIn` never exceeds `offerOut`
numerically, and the subsequent `offerOut -= received` never raises the
negative-result (Underflow) error. -/
theorem c10_partial_fill_safe (offerOut offerIn paid m ret : Amount)
    (hOut : isCanonical offerOut) (hIn : isCanonical offerIn) (hPaid : isCanonical paid)
    (hp0 : paid.value ≠ 0) (hin0 : offerIn.value ≠ 0) (hout0 : offerOut.value ≠ 0)
    (hge : geA paid offerIn = false)
    (hm : mulAmount paid offerOut = .ok m)
    (hret : divAmount m offerIn = .ok ret) :
    numericVal ret ≤ numericVal offerOut ∧ subAmount offerOut ret ≠ .err .underflow := by
  have hinpos : 0 < numericVal offerIn := numericVal_pos _ hin0
  have houtpos : 0 < numericVal offerOut := numericVal_pos _ hout0
  have h1 : numericVal ret * numericVal offerIn ≤ numericVal m :=
    divAmount_numeric_mul_le _ _ _ hin0 hret
  have h2 : numericVal m ≤ numericVal paid * numericVal offerOut :=
    mulAmount_numeric_le _ _ _ hm
  have h3 : numericVal paid < numericVal offerIn :=
    numeric_lt_of_geA_false _ _ hPaid hIn hp0 hin0 hge
  have hlt : numericVal ret < numericVal offerOut := by
    have hc : numericVal ret * numericVal offerIn < numericVal offerOut * numericVal offerIn := by
      calc numericVal ret * numericVal offerIn
          ≤ numericVal paid * numericVal offerOut := h1.trans h2
        _ < numericVal offerIn * numericVal offerOut :=
            mul_lt_mul_of_pos_right h3 houtpos
        _ = numericVal offerOut * numericVal offerIn := mul_comm _ _
    exact lt_of_mul_lt_mul_right hc hinpos.le
  have hmax : offerOut.value ≤ cMaxValue := by
    rcases hOut with ⟨hz, _⟩ | ⟨_, hb, _, _⟩
    · exact absurd hz hout0
    · exact hb
  exact ⟨hlt.le, sub_no_underflow _ _ hmax hlt.le⟩

/-- C10 witness: the partial-fill branch at `offerOut = 100`, `offerIn = 50`,
`paid = 10` (canonical forms), where the multiply yields `(10^15, -12)` and
the divide yields `received = 20`. -/
theorem c10_partial_fill_safe_witness :
    numericVal ⟨2000000000000000, -14⟩ ≤ numericVal ⟨1000000000000000, -13⟩ ∧
    subAmount ⟨1000000000000000, -13⟩ ⟨2000000000000000, -14⟩ ≠ .err .underflow :=
  c10_partial_fill_safe ⟨1000000000000000, -13⟩ ⟨5000000000000000, -14⟩
    ⟨1000000000000000, -14⟩ ⟨1000000000000000, -12⟩ ⟨2000000000000000, -14⟩
    (by decide) (by decide) (by decide) (by decide) (by decide) (by decide)
    (by decide) (by decide) (by decide)
